import Mathlib

/-!
Verification of the readers-writers coordinator in `src/n3.cpp`.

The C++ class `ReadersWriters` is a monitor: a mutex guards the fields,
and `start_read` / `start_write` block on a condition variable with a
wait predicate (a lambda) chosen by the branch taken at entry time.
We embed the monitor as a labelled transition system:

* `ReadersWriters` is the field record of the C++ class (the four `int`
  counters are embedded as `Int`, `writer_active : Bool`, and the
  `std::queue<bool> request_queue` as `List Bool`, `true` = writer).
* Each method body is split at its `cv.wait` call: the code before the
  wait is an "enter" function, the wait lambda is a "ready" predicate,
  and the code after the wait is a "grant" function. The branch on
  `priority` is taken at entry, so a blocked thread keeps the wait
  predicate of the policy in force when it entered; we record that
  captured policy in the thread's status.
* `Sys` adds a list of thread statuses; `stepEv` is one atomic monitor
  transition (condition-variable semantics: any blocked thread whose
  captured predicate holds in the current state may be granted).
  `run` executes a list of events, so concrete interleavings evaluate.
-/

namespace RW

/-- `enum class Priority` from `src/n3.cpp`. -/
inductive Priority where
  | READERS
  | WRITERS
  | FAIR
deriving DecidableEq, Repr

/-- The fields of the C++ class `ReadersWriters` (`src/n3.cpp`, lines 18-34).
`request_queue` holds `true` for a writer ticket, `false` for a reader
ticket, exactly as the C++ `std::queue<bool>`. -/
structure ReadersWriters where
  active_readers : Int
  waiting_readers : Int
  active_writers : Int
  waiting_writers : Int
  priority : Priority
  writer_active : Bool
  request_queue : List Bool
deriving DecidableEq, Repr

/-- The constructor `ReadersWriters(Priority p)`: all counters zero,
no active writer, empty queue. -/
def init (p : Priority) : ReadersWriters :=
  { active_readers := 0
    waiting_readers := 0
    active_writers := 0
    waiting_writers := 0
    priority := p
    writer_active := false
    request_queue := [] }

/-- The part of `start_read` before the `cv_read.wait` call: under FAIR
push a reader ticket, otherwise increment `waiting_readers`. Returns the
state together with the policy captured by the chosen branch (the wait
lambda is fixed at this point in the C++ code). -/
def start_read_enter (s : ReadersWriters) : ReadersWriters × Priority :=
  if s.priority = .FAIR then
    ({ s with request_queue := s.request_queue ++ [false] }, .FAIR)
  else
    ({ s with waiting_readers := s.waiting_readers + 1 }, s.priority)

/-- The wait lambdas of `start_read`, by captured branch:
FAIR: `!writer_active && !request_queue.empty() && !request_queue.front()`;
READERS: `!writer_active`;
WRITERS: `!writer_active && waiting_writers == 0`. -/
def read_ready (s : ReadersWriters) : Priority → Bool
  | .FAIR => !s.writer_active && s.request_queue.head? == some false
  | .READERS => !s.writer_active
  | .WRITERS => !s.writer_active && s.waiting_writers == 0

/-- The part of `start_read` after the wait returns: under the FAIR
branch pop the queue, otherwise decrement `waiting_readers`; then
increment `active_readers`. -/
def start_read_grant (s : ReadersWriters) (cap : Priority) : ReadersWriters :=
  let s1 := if cap = .FAIR then
    { s with request_queue := s.request_queue.tail }
  else
    { s with waiting_readers := s.waiting_readers - 1 }
  { s1 with active_readers := s1.active_readers + 1 }

/-- Notifications a monitor operation issues (state-neutral: a woken
thread still rechecks its predicate before proceeding). -/
inductive Wake where
  | oneWriter
  | allReaders
deriving DecidableEq, Repr

/-- `end_read`: decrement `active_readers`; if it reached zero notify one
writer; under FAIR additionally notify the class of the queue head. -/
def end_read (s : ReadersWriters) : ReadersWriters × List Wake :=
  let s1 := { s with active_readers := s.active_readers - 1 }
  let w1 : List Wake := if s1.active_readers == 0 then [.oneWriter] else []
  let w2 : List Wake :=
    if s1.priority = .FAIR then
      match s1.request_queue with
      | [] => []
      | b :: _ => if b then [.oneWriter] else [.allReaders]
    else []
  (s1, w1 ++ w2)

/-- The part of `start_write` before the `cv_write.wait` call. -/
def start_write_enter (s : ReadersWriters) : ReadersWriters × Priority :=
  if s.priority = .FAIR then
    ({ s with request_queue := s.request_queue ++ [true] }, .FAIR)
  else
    ({ s with waiting_writers := s.waiting_writers + 1 }, s.priority)

/-- The wait lambdas of `start_write`, by captured branch:
FAIR: `!writer_active && active_readers == 0 && !request_queue.empty()
&& request_queue.front()`; the READERS and WRITERS lambdas are textually
identical in the source: `!writer_active && active_readers == 0`. -/
def write_ready (s : ReadersWriters) : Priority → Bool
  | .FAIR =>
      !s.writer_active && s.active_readers == 0 &&
        s.request_queue.head? == some true
  | .READERS => !s.writer_active && s.active_readers == 0
  | .WRITERS => !s.writer_active && s.active_readers == 0

/-- The part of `start_write` after the wait returns: pop the queue
(FAIR) or decrement `waiting_writers`; then set `writer_active := true`
and increment `active_writers`. -/
def start_write_grant (s : ReadersWriters) (cap : Priority) : ReadersWriters :=
  let s1 := if cap = .FAIR then
    { s with request_queue := s.request_queue.tail }
  else
    { s with waiting_writers := s.waiting_writers - 1 }
  { s1 with writer_active := true, active_writers := s1.active_writers + 1 }

/-- `end_write`: clear `writer_active`, decrement `active_writers`, then
notify according to the current policy (`src/n3.cpp`, lines 124-154). -/
def end_write (s : ReadersWriters) : ReadersWriters × List Wake :=
  let s1 := { s with writer_active := false,
                     active_writers := s.active_writers - 1 }
  let w : List Wake :=
    match s1.priority with
    | .READERS =>
        if s1.waiting_readers > 0 then [.allReaders]
        else if s1.waiting_writers > 0 then [.oneWriter]
        else []
    | .WRITERS =>
        if s1.waiting_writers > 0 then [.oneWriter]
        else if s1.waiting_readers > 0 then [.allReaders]
        else []
    | .FAIR =>
        match s1.request_queue with
        | [] => []
        | b :: _ => if b then [.oneWriter] else [.allReaders]
  (s1, w)

/-- `set_priority`: clear the queue when leaving FAIR
(`priority == FAIR && new_priority != FAIR`) or else when entering FAIR
(`new_priority == FAIR`), set the new policy, and broadcast both
condition variables. -/
def set_priority (s : ReadersWriters) (new_priority : Priority) :
    ReadersWriters :=
  let q :=
    if s.priority = .FAIR ∧ new_priority ≠ .FAIR then []
    else if new_priority = .FAIR then []
    else s.request_queue
  { s with request_queue := q, priority := new_priority }

/-- The values `print_status` reads and prints: the four counters,
`writer_active`, the queue length (printed only under FAIR), and the
policy. -/
structure Snapshot where
  active_readers : Int
  waiting_readers : Int
  active_writers : Int
  writer_active : Bool
  waiting_writers : Int
  queue_len : Option Nat
  priority : Priority
deriving DecidableEq, Repr

/-- `print_status`: the method body only reads the fields (no field is
assigned), so its state transform is the identity; the snapshot is the
tuple of values it formats. -/
def print_status (s : ReadersWriters) : ReadersWriters × Snapshot :=
  (s,
    { active_readers := s.active_readers
      waiting_readers := s.waiting_readers
      active_writers := s.active_writers
      writer_active := s.writer_active
      waiting_writers := s.waiting_writers
      queue_len :=
        if s.priority = .FAIR then some s.request_queue.length else none
      priority := s.priority })

/-- Status of one thread with respect to the coordinator. A waiting
status records the policy captured by the branch taken at entry. -/
inductive TStat where
  | idle
  | waitRead (cap : Priority)
  | waitWrite (cap : Priority)
  | activeRead
  | activeWrite
deriving DecidableEq, Repr

/-- The monitor together with the statuses of finitely many client
threads (thread ids are list indices). -/
structure Sys where
  st : ReadersWriters
  threads : List TStat
deriving DecidableEq, Repr

/-- A fresh system: the coordinator constructed with policy `p` and `n`
idle client threads. -/
def initSys (p : Priority) (n : Nat) : Sys :=
  { st := init p, threads := List.replicate n TStat.idle }

/-- Events labelling monitor transitions: the blocking acquires are
split into an enter part and a grant part; releases and policy switches
are single events. -/
inductive Ev where
  | startRead (tid : Nat)
  | grantRead (tid : Nat)
  | endRead (tid : Nat)
  | startWrite (tid : Nat)
  | grantWrite (tid : Nat)
  | endWrite (tid : Nat)
  | setPrio (p : Priority)
deriving DecidableEq, Repr

/-- Atomic monitor transitions, labelled by events. `startRead tid` is
the entry section of `start_read` run by thread `tid` (up to its wait);
`grantRead tid` fires when the thread's captured wait predicate holds
and runs the rest of the method; releases and `setPrio` run whole method
bodies. A step is enabled only when the thread's status respects the
protocol (matched acquire/release). -/
def stepEv (σ : Sys) : Ev → Option Sys
  | .startRead tid =>
    match σ.threads[tid]? with
    | some .idle =>
      some { st := (start_read_enter σ.st).1,
             threads := σ.threads.set tid
               (.waitRead (start_read_enter σ.st).2) }
    | _ => none
  | .grantRead tid =>
    match σ.threads[tid]? with
    | some (.waitRead cap) =>
      if read_ready σ.st cap then
        some { st := start_read_grant σ.st cap,
               threads := σ.threads.set tid .activeRead }
      else none
    | _ => none
  | .endRead tid =>
    match σ.threads[tid]? with
    | some .activeRead =>
      some { st := (end_read σ.st).1, threads := σ.threads.set tid .idle }
    | _ => none
  | .startWrite tid =>
    match σ.threads[tid]? with
    | some .idle =>
      some { st := (start_write_enter σ.st).1,
             threads := σ.threads.set tid
               (.waitWrite (start_write_enter σ.st).2) }
    | _ => none
  | .grantWrite tid =>
    match σ.threads[tid]? with
    | some (.waitWrite cap) =>
      if write_ready σ.st cap then
        some { st := start_write_grant σ.st cap,
               threads := σ.threads.set tid .activeWrite }
      else none
    | _ => none
  | .endWrite tid =>
    match σ.threads[tid]? with
    | some .activeWrite =>
      some { st := (end_write σ.st).1, threads := σ.threads.set tid .idle }
    | _ => none
  | .setPrio p =>
    some { st := set_priority σ.st p, threads := σ.threads }

/-- Run a sequence of events from a system state; `none` if some event
is not enabled (so a `some` result certifies a protocol-respecting
interleaving). -/
def run (σ : Sys) : List Ev → Option Sys
  | [] => some σ
  | e :: l =>
    match stepEv σ e with
    | some σ2 => run σ2 l
    | none => none

/-- A state is reachable when some protocol-respecting interleaving
produces it from a freshly constructed coordinator. -/
def Reachable (σ : Sys) : Prop :=
  ∃ p n l, run (initSys p n) l = some σ

/-- Is this thread currently inside a write critical section? -/
def isActiveWrite : TStat → Bool
  | .activeWrite => true
  | _ => false

/-- Is this thread currently inside a read critical section? -/
def isActiveRead : TStat → Bool
  | .activeRead => true
  | _ => false

/-- Number of threads inside a write critical section. -/
def nActiveW (ts : List TStat) : Nat := ts.countP isActiveWrite

/-- Number of threads inside a read critical section. -/
def nActiveR (ts : List TStat) : Nat := ts.countP isActiveRead

/-- The safety invariant of the coordinator: the counters agree with the
thread statuses, at most one writer is active, `writer_active` flags
exactly the one-active-writer states, and an active writer excludes
active readers. -/
def Inv (σ : Sys) : Prop :=
  σ.st.active_writers = (nActiveW σ.threads : Int) ∧
  σ.st.active_readers = (nActiveR σ.threads : Int) ∧
  nActiveW σ.threads ≤ 1 ∧
  (σ.st.writer_active = true ↔ nActiveW σ.threads = 1) ∧
  (σ.st.writer_active = true → nActiveR σ.threads = 0)

theorem countP_set_add (p : TStat → Bool) :
    ∀ (l : List TStat) (i : Nat) (a b : TStat), l[i]? = some a →
      (l.set i b).countP p + (if p a then 1 else 0)
        = l.countP p + (if p b then 1 else 0)
  | [], i, _, _, h => by simp at h
  | x :: l, 0, a, b, h => by
    simp only [List.getElem?_cons_zero, Option.some.injEq] at h
    subst h
    simp only [List.set_cons_zero, List.countP_cons]
    omega
  | x :: l, i + 1, a, b, h => by
    simp only [List.getElem?_cons_succ] at h
    have ih := countP_set_add p l i a b h
    simp only [List.set_cons_succ, List.countP_cons]
    omega

theorem countP_pos_of_getElem (p : TStat → Bool) (l : List TStat) (i : Nat)
    (a : TStat) (h : l[i]? = some a) (hp : p a = true) :
    0 < l.countP p := by
  have hm : a ∈ l := by
    have hlt : i < l.length := by
      by_contra hge
      rw [List.getElem?_eq_none (Nat.le_of_not_lt hge)] at h
      exact Option.noConfusion h
    rw [List.getElem?_eq_getElem hlt] at h
    exact (Option.some.injEq _ _ ▸ h) ▸ l.getElem_mem hlt
  exact List.countP_pos_iff.mpr ⟨a, hm, hp⟩

theorem start_read_enter_fields (s : ReadersWriters) :
    (start_read_enter s).1.active_readers = s.active_readers ∧
    (start_read_enter s).1.active_writers = s.active_writers ∧
    (start_read_enter s).1.writer_active = s.writer_active := by
  unfold start_read_enter
  split <;> simp

theorem start_write_enter_fields (s : ReadersWriters) :
    (start_write_enter s).1.active_readers = s.active_readers ∧
    (start_write_enter s).1.active_writers = s.active_writers ∧
    (start_write_enter s).1.writer_active = s.writer_active := by
  unfold start_write_enter
  split <;> simp

theorem start_read_grant_fields (s : ReadersWriters) (cap : Priority) :
    (start_read_grant s cap).active_readers = s.active_readers + 1 ∧
    (start_read_grant s cap).active_writers = s.active_writers ∧
    (start_read_grant s cap).writer_active = s.writer_active := by
  unfold start_read_grant
  split <;> simp

theorem start_write_grant_fields (s : ReadersWriters) (cap : Priority) :
    (start_write_grant s cap).active_readers = s.active_readers ∧
    (start_write_grant s cap).active_writers = s.active_writers + 1 ∧
    (start_write_grant s cap).writer_active = true := by
  unfold start_write_grant
  split <;> simp

theorem end_read_fields (s : ReadersWriters) :
    (end_read s).1.active_readers = s.active_readers - 1 ∧
    (end_read s).1.active_writers = s.active_writers ∧
    (end_read s).1.writer_active = s.writer_active := by
  unfold end_read
  simp

theorem end_write_fields (s : ReadersWriters) :
    (end_write s).1.active_readers = s.active_readers ∧
    (end_write s).1.active_writers = s.active_writers - 1 ∧
    (end_write s).1.writer_active = false := by
  unfold end_write
  simp

theorem set_priority_fields (s : ReadersWriters) (p : Priority) :
    (set_priority s p).active_readers = s.active_readers ∧
    (set_priority s p).active_writers = s.active_writers ∧
    (set_priority s p).writer_active = s.writer_active := by
  unfold set_priority
  simp

theorem read_ready_wa {s : ReadersWriters} {cap : Priority}
    (h : read_ready s cap = true) : s.writer_active = false := by
  cases cap <;>
    simp only [read_ready, Bool.and_eq_true, Bool.not_eq_true'] at h <;>
    tauto

theorem write_ready_wa {s : ReadersWriters} {cap : Priority}
    (h : write_ready s cap = true) :
    s.writer_active = false ∧ s.active_readers = 0 := by
  cases cap <;>
    simp only [write_ready, Bool.and_eq_true, Bool.not_eq_true',
      beq_iff_eq] at h <;>
    tauto

theorem Inv_step {σ σ2 : Sys} {e : Ev} (hI : Inv σ)
    (h : stepEv σ e = some σ2) : Inv σ2 := by
  obtain ⟨h1, h2, h3, h4, h5⟩ := hI
  cases e with
  | startRead tid =>
    simp only [stepEv] at h
    split at h
    case _ hm =>
      rw [Option.some_inj] at h
      subst h
      have hW := countP_set_add isActiveWrite σ.threads tid _ (.waitRead (start_read_enter σ.st).2) hm
      have hR := countP_set_add isActiveRead σ.threads tid _ (.waitRead (start_read_enter σ.st).2) hm
      obtain ⟨f1, f2, f3⟩ := start_read_enter_fields σ.st
      simp [isActiveWrite, isActiveRead] at hW hR
      refine ⟨?_, ?_, ?_, ?_, ?_⟩ <;>
        simp only [nActiveW, nActiveR] at h1 h2 h3 h4 h5 hW hR ⊢
      · rw [f2]; omega
      · rw [f1]; omega
      · omega
      · rw [f3]
        constructor
        · intro hx; have := h4.mp hx; omega
        · intro hx; exact h4.mpr (by omega)
      · rw [f3]; intro hx; have := h5 hx; omega
    case _ => exact Option.noConfusion h
  | grantRead tid =>
    simp only [stepEv] at h
    split at h
    case _ cap hm =>
      split at h
      case _ hr =>
        rw [Option.some_inj] at h
        subst h
        have hwa := read_ready_wa hr
        have hW := countP_set_add isActiveWrite σ.threads tid _ (.activeRead) hm
        have hR := countP_set_add isActiveRead σ.threads tid _ (.activeRead) hm
        obtain ⟨f1, f2, f3⟩ := start_read_grant_fields σ.st cap
        simp [isActiveWrite, isActiveRead] at hW hR
        refine ⟨?_, ?_, ?_, ?_, ?_⟩ <;>
          simp only [nActiveW, nActiveR] at h1 h2 h3 h4 h5 hW hR ⊢
        · rw [f2]; omega
        · rw [f1]; omega
        · omega
        · rw [f3, hwa]
          constructor
          · intro hx; exact Bool.noConfusion hx
          · intro hx
            have := h4.mpr (by omega)
            rw [hwa] at this
            exact Bool.noConfusion this
        · rw [f3, hwa]; intro hx; exact Bool.noConfusion hx
      case _ => exact Option.noConfusion h
    case _ => exact Option.noConfusion h
  | endRead tid =>
    simp only [stepEv] at h
    split at h
    case _ hm =>
      rw [Option.some_inj] at h
      subst h
      have hpos := countP_pos_of_getElem isActiveRead σ.threads tid _ hm rfl
      have hW := countP_set_add isActiveWrite σ.threads tid _ (.idle) hm
      have hR := countP_set_add isActiveRead σ.threads tid _ (.idle) hm
      obtain ⟨f1, f2, f3⟩ := end_read_fields σ.st
      simp [isActiveWrite, isActiveRead] at hW hR
      refine ⟨?_, ?_, ?_, ?_, ?_⟩ <;>
        simp only [nActiveW, nActiveR] at h1 h2 h3 h4 h5 hW hR hpos ⊢
      · rw [f2]; omega
      · rw [f1]; omega
      · omega
      · rw [f3]
        constructor
        · intro hx; have := h4.mp hx; omega
        · intro hx; exact h4.mpr (by omega)
      · rw [f3]; intro hx; have := h5 hx; omega
    case _ => exact Option.noConfusion h
  | startWrite tid =>
    simp only [stepEv] at h
    split at h
    case _ hm =>
      rw [Option.some_inj] at h
      subst h
      have hW := countP_set_add isActiveWrite σ.threads tid _ (.waitWrite (start_write_enter σ.st).2) hm
      have hR := countP_set_add isActiveRead σ.threads tid _ (.waitWrite (start_write_enter σ.st).2) hm
      obtain ⟨f1, f2, f3⟩ := start_write_enter_fields σ.st
      simp [isActiveWrite, isActiveRead] at hW hR
      refine ⟨?_, ?_, ?_, ?_, ?_⟩ <;>
        simp only [nActiveW, nActiveR] at h1 h2 h3 h4 h5 hW hR ⊢
      · rw [f2]; omega
      · rw [f1]; omega
      · omega
      · rw [f3]
        constructor
        · intro hx; have := h4.mp hx; omega
        · intro hx; exact h4.mpr (by omega)
      · rw [f3]; intro hx; have := h5 hx; omega
    case _ => exact Option.noConfusion h
  | grantWrite tid =>
    simp only [stepEv] at h
    split at h
    case _ cap hm =>
      split at h
      case _ hr =>
        rw [Option.some_inj] at h
        subst h
        obtain ⟨hwa, har⟩ := write_ready_wa hr
        have hW := countP_set_add isActiveWrite σ.threads tid _ (.activeWrite) hm
        have hR := countP_set_add isActiveRead σ.threads tid _ (.activeWrite) hm
        obtain ⟨f1, f2, f3⟩ := start_write_grant_fields σ.st cap
        simp [isActiveWrite, isActiveRead] at hW hR
        have hw0 : nActiveW σ.threads = 0 := by
          rcases Nat.lt_or_ge (nActiveW σ.threads) 1 with hlt | hge
          · omega
          · exfalso
            have := h4.mpr (by omega)
            rw [hwa] at this
            exact Bool.noConfusion this
        refine ⟨?_, ?_, ?_, ?_, ?_⟩ <;>
          simp only [nActiveW, nActiveR] at h1 h2 h3 h4 h5 hW hR hw0 ⊢
        · rw [f2]; omega
        · rw [f1]; omega
        · omega
        · rw [f3]; simp only [true_iff]; omega
        · rw [f3]; intro _; rw [f1] at *; omega
      case _ => exact Option.noConfusion h
    case _ => exact Option.noConfusion h
  | endWrite tid =>
    simp only [stepEv] at h
    split at h
    case _ hm =>
      rw [Option.some_inj] at h
      subst h
      have hpos := countP_pos_of_getElem isActiveWrite σ.threads tid _ hm rfl
      have hW := countP_set_add isActiveWrite σ.threads tid _ (.idle) hm
      have hR := countP_set_add isActiveRead σ.threads tid _ (.idle) hm
      obtain ⟨f1, f2, f3⟩ := end_write_fields σ.st
      simp [isActiveWrite, isActiveRead] at hW hR
      refine ⟨?_, ?_, ?_, ?_, ?_⟩ <;>
        simp only [nActiveW, nActiveR] at h1 h2 h3 h4 h5 hW hR hpos ⊢
      · rw [f2]; omega
      · rw [f1]; omega
      · omega
      · rw [f3]
        constructor
        · intro hx; exact Bool.noConfusion hx
        · intro hx; omega
      · rw [f3]; intro hx; exact Bool.noConfusion hx
    case _ => exact Option.noConfusion h
  | setPrio p =>
    simp only [stepEv, Option.some_inj] at h
    subst h
    obtain ⟨f1, f2, f3⟩ := set_priority_fields σ.st p
    exact ⟨by rw [f2]; exact h1, by rw [f1]; exact h2, h3,
      by rw [f3]; exact h4, by rw [f3]; exact h5⟩

theorem Inv_run :
    ∀ (l : List Ev) (σ σ2 : Sys), Inv σ → run σ l = some σ2 → Inv σ2
  | [], σ, σ2, hI, h => by
    rw [run, Option.some_inj] at h
    exact h ▸ hI
  | e :: l, σ, σ2, hI, h => by
    rw [run] at h
    cases hs : stepEv σ e with
    | none => rw [hs] at h; exact Option.noConfusion h
    | some σ1 =>
      rw [hs] at h
      exact Inv_run l σ1 σ2 (Inv_step hI hs) h

theorem Inv_initSys (p : Priority) (n : Nat) : Inv (initSys p n) := by
  have hz : ∀ (q : TStat → Bool) (m : Nat), q .idle = false →
      (List.replicate m TStat.idle).countP q = 0 := by
    intro q m hq
    induction m with
    | zero => rfl
    | succ m ih => simp [List.replicate_succ, List.countP_cons, hq, ih]
  refine ⟨?_, ?_, ?_, ?_, ?_⟩ <;>
    simp [initSys, init, Inv, nActiveW, nActiveR, hz isActiveWrite n rfl,
      hz isActiveRead n rfl]

theorem Inv_reachable {σ : Sys} (h : Reachable σ) : Inv σ := by
  obtain ⟨p, n, l, h⟩ := h
  exact Inv_run l _ σ (Inv_initSys p n) h

/-- Claim C1: mutual exclusion. In every state reachable by a sequence
of protocol-respecting coordinator operations it is never the case that
`active_writers == 1` while `active_readers > 0`. -/
theorem mutual_exclusion (σ : Sys) (h : Reachable σ) :
    ¬(σ.st.active_writers = 1 ∧ 0 < σ.st.active_readers) := by
  obtain ⟨h1, h2, h3, h4, h5⟩ := Inv_reachable h
  rintro ⟨hw, hr⟩
  have hnW : nActiveW σ.threads = 1 := by omega
  have := h5 (h4.mpr hnW)
  omega

/-- Witness for C1: the mutual-exclusion theorem applied to the concrete
state reached by a writer acquiring under FAIR policy. -/
theorem mutual_exclusion_witness :
    ¬((⟨⟨0, 0, 1, 0, .FAIR, true, []⟩, [.activeWrite]⟩ : Sys).st.active_writers = 1 ∧
      0 < (⟨⟨0, 0, 1, 0, .FAIR, true, []⟩, [.activeWrite]⟩ : Sys).st.active_readers) :=
  mutual_exclusion _ ⟨.FAIR, 1, [.startWrite 0, .grantWrite 0], by decide⟩

/-- Claim C2: single-writer invariant. In every reachable state
`active_writers` is 0 or 1, and `writer_active` is true exactly when
`active_writers == 1`. -/
theorem single_writer (σ : Sys) (h : Reachable σ) :
    (σ.st.active_writers = 0 ∨ σ.st.active_writers = 1) ∧
    (σ.st.writer_active = true ↔ σ.st.active_writers = 1) := by
  obtain ⟨h1, h2, h3, h4, h5⟩ := Inv_reachable h
  constructor
  · omega
  · constructor
    · intro hx; have := h4.mp hx; omega
    · intro hx; exact h4.mpr (by omega)

/-- Witness for C2: the single-writer theorem applied to the concrete
state reached by a writer acquiring under FAIR policy. -/
theorem single_writer_witness :
    ((⟨⟨0, 0, 1, 0, .FAIR, true, []⟩, [.activeWrite]⟩ : Sys).st.active_writers = 0 ∨
     (⟨⟨0, 0, 1, 0, .FAIR, true, []⟩, [.activeWrite]⟩ : Sys).st.active_writers = 1) ∧
    ((⟨⟨0, 0, 1, 0, .FAIR, true, []⟩, [.activeWrite]⟩ : Sys).st.writer_active = true ↔
     (⟨⟨0, 0, 1, 0, .FAIR, true, []⟩, [.activeWrite]⟩ : Sys).st.active_writers = 1) :=
  single_writer _ ⟨.FAIR, 1, [.startWrite 0, .grantWrite 0], by decide⟩

theorem getElem?_some_lt {l : List TStat} {i : Nat} {a : TStat}
    (h : l[i]? = some a) : i < l.length := by
  by_contra hge
  rw [List.getElem?_eq_none (Nat.le_of_not_lt hge)] at h
  exact Option.noConfusion h

/-- Claim C5: WriterPriority reader admission. A reader that calls
`start_read` while the policy is WriterPriority captures the
WriterPriority wait lambda, and a reader blocked on that lambda is
granted only in a state with `writer_active == false` and
`waiting_writers == 0`; so no such reader is admitted while any writer
is waiting. -/
theorem writer_priority_read_admission :
    (∀ (σ σ2 : Sys) (tid : Nat), σ.st.priority = .WRITERS →
      stepEv σ (.startRead tid) = some σ2 →
      σ2.threads[tid]? = some (.waitRead .WRITERS)) ∧
    (∀ (σ σ2 : Sys) (tid : Nat),
      σ.threads[tid]? = some (.waitRead .WRITERS) →
      stepEv σ (.grantRead tid) = some σ2 →
      σ.st.writer_active = false ∧ σ.st.waiting_writers = 0) := by
  constructor
  · intro σ σ2 tid hp h
    simp only [stepEv] at h
    split at h
    case _ hm =>
      rw [Option.some_inj] at h
      subst h
      have hlt := getElem?_some_lt hm
      simp only [start_read_enter, hp]
      rw [if_neg (by intro hc; exact Priority.noConfusion hc)]
      exact List.getElem?_set_eq_of_lt _ hlt
    case _ => exact Option.noConfusion h
  · intro σ σ2 tid hm h
    simp only [stepEv, hm] at h
    split at h
    case _ hr =>
      simp only [read_ready, Bool.and_eq_true, Bool.not_eq_true',
        beq_iff_eq] at hr
      exact hr
    case _ => exact Option.noConfusion h

/-- Witness for C5: a concrete WriterPriority entry by thread 0, and a
concrete grant of a WriterPriority-blocked reader in a writer-free,
writer-waiter-free state. -/
theorem writer_priority_read_admission_witness :
    (⟨⟨0, 1, 0, 0, .WRITERS, false, []⟩,
        [.waitRead .WRITERS]⟩ : Sys).threads[0]? =
      some (.waitRead .WRITERS) ∧
    ((⟨⟨0, 1, 0, 0, .WRITERS, false, []⟩,
        [.waitRead .WRITERS]⟩ : Sys).st.writer_active = false ∧
      (⟨⟨0, 1, 0, 0, .WRITERS, false, []⟩,
        [.waitRead .WRITERS]⟩ : Sys).st.waiting_writers = 0) :=
  ⟨writer_priority_read_admission.1 ⟨init .WRITERS, [.idle]⟩
      ⟨⟨0, 1, 0, 0, .WRITERS, false, []⟩, [.waitRead .WRITERS]⟩ 0
      rfl (by decide),
    writer_priority_read_admission.2
      ⟨⟨0, 1, 0, 0, .WRITERS, false, []⟩, [.waitRead .WRITERS]⟩
      ⟨⟨1, 0, 0, 0, .WRITERS, false, []⟩, [.activeRead]⟩ 0
      (by decide) (by decide)⟩

/-- Claim C6: writer admission under the non-FAIR policies. A writer
blocked under the ReaderPriority or WriterPriority branch (their wait
lambdas are textually identical in the source) is granted only when
`writer_active == false` and `active_readers == 0`, and the grant sets
`writer_active := true` and increments `active_writers` by one. -/
theorem write_admission (σ σ2 : Sys) (tid : Nat) (cap : Priority)
    (_hcap : cap = .READERS ∨ cap = .WRITERS)
    (hm : σ.threads[tid]? = some (.waitWrite cap))
    (h : stepEv σ (.grantWrite tid) = some σ2) :
    σ.st.writer_active = false ∧ σ.st.active_readers = 0 ∧
    σ2.st.writer_active = true ∧
    σ2.st.active_writers = σ.st.active_writers + 1 := by
  simp only [stepEv, hm] at h
  split at h
  case _ hr =>
    rw [Option.some_inj] at h
    subst h
    obtain ⟨hwa, har⟩ := write_ready_wa hr
    obtain ⟨f1, f2, f3⟩ := start_write_grant_fields σ.st cap
    exact ⟨hwa, har, f3, f2⟩
  case _ => exact Option.noConfusion h

/-- Witness for C6: a concrete grant of a writer blocked under the
ReaderPriority branch in a quiescent state. -/
theorem write_admission_witness :
    (⟨⟨0, 0, 0, 1, .READERS, false, []⟩,
        [.waitWrite .READERS]⟩ : Sys).st.writer_active = false ∧
    (⟨⟨0, 0, 0, 1, .READERS, false, []⟩,
        [.waitWrite .READERS]⟩ : Sys).st.active_readers = 0 ∧
    (⟨⟨0, 0, 1, 0, .READERS, true, []⟩,
        [.activeWrite]⟩ : Sys).st.writer_active = true ∧
    (⟨⟨0, 0, 1, 0, .READERS, true, []⟩,
        [.activeWrite]⟩ : Sys).st.active_writers =
      (⟨⟨0, 0, 0, 1, .READERS, false, []⟩,
        [.waitWrite .READERS]⟩ : Sys).st.active_writers + 1 :=
  write_admission ⟨⟨0, 0, 0, 1, .READERS, false, []⟩, [.waitWrite .READERS]⟩
    ⟨⟨0, 0, 1, 0, .READERS, true, []⟩, [.activeWrite]⟩ 0 .READERS
    (Or.inl rfl) (by decide) (by decide)

/-- Claim C7: `end_write` wake policy. `end_write` first clears
`writer_active` and decrements `active_writers`; then under
ReaderPriority it wakes all readers when `waiting_readers > 0` and
otherwise one writer when `waiting_writers > 0`; under WriterPriority it
wakes one writer when `waiting_writers > 0` and otherwise all readers
when `waiting_readers > 0`; under FAIR it wakes one writer when the
queue head is a Writer ticket and all readers when it is a Reader
ticket. -/
theorem end_write_wake_policy (s : ReadersWriters) :
    (end_write s).1.writer_active = false ∧
    (end_write s).1.active_writers = s.active_writers - 1 ∧
    (s.priority = .READERS →
      (0 < s.waiting_readers → (end_write s).2 = [.allReaders]) ∧
      (¬0 < s.waiting_readers → 0 < s.waiting_writers →
        (end_write s).2 = [.oneWriter])) ∧
    (s.priority = .WRITERS →
      (0 < s.waiting_writers → (end_write s).2 = [.oneWriter]) ∧
      (¬0 < s.waiting_writers → 0 < s.waiting_readers →
        (end_write s).2 = [.allReaders])) ∧
    (s.priority = .FAIR →
      (s.request_queue.head? = some true → (end_write s).2 = [.oneWriter]) ∧
      (s.request_queue.head? = some false →
        (end_write s).2 = [.allReaders])) := by
  refine ⟨rfl, rfl, ?_, ?_, ?_⟩
  · intro hp
    constructor
    · intro h1; simp [end_write, hp, h1]
    · intro h1 h2; simp [end_write, hp, h1, h2]
  · intro hp
    constructor
    · intro h1; simp [end_write, hp, h1]
    · intro h1 h2; simp [end_write, hp, h1, h2]
  · intro hp
    constructor <;> intro h1 <;>
      rcases hq : s.request_queue with _ | ⟨b, q⟩ <;>
        rw [hq] at h1 <;> simp at h1 <;> simp [end_write, hp, hq, h1]

/-- Witness for C7: the wake computation evaluated in a concrete state
with one waiting reader under ReaderPriority. -/
theorem end_write_wake_policy_witness :
    (end_write ⟨0, 1, 1, 0, .READERS, true, []⟩).2 = [.allReaders] :=
  ((end_write_wake_policy ⟨0, 1, 1, 0, .READERS, true, []⟩).2.2.1
    rfl).1 (by decide)

/-- Claim C8: `set_priority` effect and frame. The queue is cleared
exactly when the new policy is FAIR or the old policy was FAIR and the
new one is not; the policy field is updated; the five other fields are
unchanged; and the `setPrio` transition is enabled in every state (the
operation never blocks its caller). -/
theorem set_priority_effect (s : ReadersWriters) (p : Priority) :
    (set_priority s p).request_queue =
      (if p = .FAIR ∨ (s.priority = .FAIR ∧ p ≠ .FAIR) then []
       else s.request_queue) ∧
    (set_priority s p).priority = p ∧
    (set_priority s p).active_readers = s.active_readers ∧
    (set_priority s p).waiting_readers = s.waiting_readers ∧
    (set_priority s p).active_writers = s.active_writers ∧
    (set_priority s p).waiting_writers = s.waiting_writers ∧
    (set_priority s p).writer_active = s.writer_active ∧
    (∀ σ : Sys, stepEv σ (.setPrio p) =
      some ⟨set_priority σ.st p, σ.threads⟩) := by
  refine ⟨?_, rfl, rfl, rfl, rfl, rfl, rfl, fun σ => rfl⟩
  cases hs : s.priority <;> cases hp : p <;>
    simp [set_priority, hs]

/-- Claim C9: idempotent snapshot. `print_status` only reads the fields:
its state transform is the identity, so two consecutive calls with no
intervening operation return identical snapshots (same counts, flag,
queue length and policy). -/
theorem status_idempotent (s : ReadersWriters) :
    (print_status s).1 = s ∧
    (print_status (print_status s).1).2 = (print_status s).2 :=
  ⟨rfl, rfl⟩

/-- A thread status whose captured wait lambda (if any) is the FAIR
one. -/
def capFair : TStat → Bool
  | .waitRead c => c == .FAIR
  | .waitWrite c => c == .FAIR
  | _ => true

/-- Is this event the entry section of an acquire? -/
def isStart : Ev → Bool
  | .startRead _ => true
  | .startWrite _ => true
  | _ => false

/-- Every acquire entry in the event list happens in a state whose
policy is FAIR (checked along the execution). -/
def fairStarts (σ : Sys) : List Ev → Bool
  | [] => true
  | e :: l =>
    (!isStart e || (σ.st.priority == .FAIR)) &&
      (match stepEv σ e with
       | some σ2 => fairStarts σ2 l
       | none => true)

/-- Both waiting counters are zero and every blocked thread captured the
FAIR wait lambda. -/
def WaitersFair (σ : Sys) : Prop :=
  σ.st.waiting_readers = 0 ∧ σ.st.waiting_writers = 0 ∧
  ∀ t ∈ σ.threads, capFair t = true

theorem set_forall_capFair {ts : List TStat} {tid : Nat} {b : TStat}
    (hts : ∀ t ∈ ts, capFair t = true) (hb : capFair b = true) :
    ∀ t ∈ ts.set tid b, capFair t = true := by
  intro t ht
  rcases List.mem_or_eq_of_mem_set ht with hmem | rfl
  · exact hts t hmem
  · exact hb

theorem capFair_of_getElem {σ : Sys} {tid : Nat} {t : TStat}
    (hW : WaitersFair σ) (hm : σ.threads[tid]? = some t) :
    capFair t = true := by
  have hlt := getElem?_some_lt hm
  rw [List.getElem?_eq_getElem hlt, Option.some_inj] at hm
  exact hW.2.2 t (hm ▸ σ.threads.getElem_mem hlt)

theorem waiters_fair_step {σ σ2 : Sys} {e : Ev} (hW : WaitersFair σ)
    (hp : isStart e = true → σ.st.priority = .FAIR)
    (h : stepEv σ e = some σ2) : WaitersFair σ2 := by
  obtain ⟨w1, w2, w3⟩ := hW
  cases e with
  | startRead tid =>
    simp only [stepEv] at h
    split at h
    case _ hm =>
      rw [Option.some_inj] at h
      subst h
      have hfair := hp rfl
      refine ⟨?_, ?_, ?_⟩ <;>
        simp only [start_read_enter, hfair, if_pos]
      · exact w1
      · exact w2
      · exact set_forall_capFair w3 rfl
    case _ => exact Option.noConfusion h
  | grantRead tid =>
    simp only [stepEv] at h
    split at h
    case _ cap hm =>
      split at h
      case _ hr =>
        rw [Option.some_inj] at h
        subst h
        have hcap : cap = .FAIR := by
          have := capFair_of_getElem ⟨w1, w2, w3⟩ hm
          simpa [capFair] using this
        subst hcap
        refine ⟨?_, ?_, ?_⟩ <;>
          simp only [start_read_grant, if_pos]
        · exact w1
        · exact w2
        · exact set_forall_capFair w3 rfl
      case _ => exact Option.noConfusion h
    case _ => exact Option.noConfusion h
  | endRead tid =>
    simp only [stepEv] at h
    split at h
    case _ hm =>
      rw [Option.some_inj] at h
      subst h
      exact ⟨w1, w2, set_forall_capFair w3 rfl⟩
    case _ => exact Option.noConfusion h
  | startWrite tid =>
    simp only [stepEv] at h
    split at h
    case _ hm =>
      rw [Option.some_inj] at h
      subst h
      have hfair := hp rfl
      refine ⟨?_, ?_, ?_⟩ <;>
        simp only [start_write_enter, hfair, if_pos]
      · exact w1
      · exact w2
      · exact set_forall_capFair w3 rfl
    case _ => exact Option.noConfusion h
  | grantWrite tid =>
    simp only [stepEv] at h
    split at h
    case _ cap hm =>
      split at h
      case _ hr =>
        rw [Option.some_inj] at h
        subst h
        have hcap : cap = .FAIR := by
          have := capFair_of_getElem ⟨w1, w2, w3⟩ hm
          simpa [capFair] using this
        subst hcap
        refine ⟨?_, ?_, ?_⟩ <;>
          simp only [start_write_grant, if_pos]
        · exact w1
        · exact w2
        · exact set_forall_capFair w3 rfl
      case _ => exact Option.noConfusion h
    case _ => exact Option.noConfusion h
  | endWrite tid =>
    simp only [stepEv] at h
    split at h
    case _ hm =>
      rw [Option.some_inj] at h
      subst h
      exact ⟨w1, w2, set_forall_capFair w3 rfl⟩
    case _ => exact Option.noConfusion h
  | setPrio p =>
    simp only [stepEv, Option.some_inj] at h
    subst h
    exact ⟨w1, w2, w3⟩

theorem waiters_fair_run :
    ∀ (l : List Ev) (σ σ2 : Sys), WaitersFair σ →
      fairStarts σ l = true → run σ l = some σ2 → WaitersFair σ2
  | [], σ, σ2, hW, _, h => by
    rw [run, Option.some_inj] at h
    exact h ▸ hW
  | e :: l, σ, σ2, hW, hf, h => by
    rw [run] at h
    rw [fairStarts, Bool.and_eq_true] at hf
    cases hs : stepEv σ e with
    | none => rw [hs] at h; exact Option.noConfusion h
    | some σ1 =>
      rw [hs] at h
      have hp : isStart e = true → σ.st.priority = .FAIR := by
        intro hi
        have := hf.1
        rw [hi] at this
        simpa using this
      have hf2 : fairStarts σ1 l = true := by
        have := hf.2
        rw [hs] at this
        exact this
      exact waiters_fair_run l σ1 σ2 (waiters_fair_step hW hp hs) hf2 h

/-- Claim C10: under FAIR policy the acquire entry sections do not touch
`waiting_readers` / `waiting_writers`; consequently, along any execution
from a fresh coordinator in which every acquire entry happens under FAIR
policy, both waiting counters are always zero, and the `print_status`
snapshot reports zero waiting readers and writers (even in states where
callers are blocked on the FAIR queue). -/
theorem fair_mode_waiting_zero :
    (∀ (σ σ2 : Sys) (tid : Nat), σ.st.priority = .FAIR →
      stepEv σ (.startRead tid) = some σ2 →
      σ2.st.waiting_readers = σ.st.waiting_readers ∧
      σ2.st.waiting_writers = σ.st.waiting_writers) ∧
    (∀ (σ σ2 : Sys) (tid : Nat), σ.st.priority = .FAIR →
      stepEv σ (.startWrite tid) = some σ2 →
      σ2.st.waiting_readers = σ.st.waiting_readers ∧
      σ2.st.waiting_writers = σ.st.waiting_writers) ∧
    (∀ (p : Priority) (n : Nat) (l : List Ev) (σ : Sys),
      fairStarts (initSys p n) l = true →
      run (initSys p n) l = some σ →
      σ.st.waiting_readers = 0 ∧ σ.st.waiting_writers = 0 ∧
      (print_status σ.st).2.waiting_readers = 0 ∧
      (print_status σ.st).2.waiting_writers = 0) := by
  refine ⟨?_, ?_, ?_⟩
  · intro σ σ2 tid hfair h
    simp only [stepEv] at h
    split at h
    case _ hm =>
      rw [Option.some_inj] at h
      subst h
      simp [start_read_enter, hfair]
    case _ => exact Option.noConfusion h
  · intro σ σ2 tid hfair h
    simp only [stepEv] at h
    split at h
    case _ hm =>
      rw [Option.some_inj] at h
      subst h
      simp [start_write_enter, hfair]
    case _ => exact Option.noConfusion h
  · intro p n l σ hf h
    have hinit : WaitersFair (initSys p n) := by
      refine ⟨rfl, rfl, ?_⟩
      intro t ht
      rw [List.eq_of_mem_replicate ht]
      rfl
    obtain ⟨w1, w2, _⟩ := waiters_fair_run l _ σ hinit hf h
    exact ⟨w1, w2, w1, w2⟩

/-- Witness for C10: a FAIR-policy run in which a writer holds the lock
and a reader is blocked on the FAIR queue; the waiting counters (and the
snapshot) still report zero. -/
theorem fair_mode_waiting_zero_witness :
    ((⟨⟨0, 0, 0, 0, .FAIR, false, [false]⟩,
        [.idle, .waitRead .FAIR]⟩ : Sys).st.waiting_readers = 0 ∧
      (⟨⟨0, 0, 0, 0, .FAIR, false, [false]⟩,
        [.idle, .waitRead .FAIR]⟩ : Sys).st.waiting_writers = 0 ∧
      (print_status (⟨⟨0, 0, 0, 0, .FAIR, false, [false]⟩,
        [.idle, .waitRead .FAIR]⟩ : Sys).st).2.waiting_readers = 0 ∧
      (print_status (⟨⟨0, 0, 0, 0, .FAIR, false, [false]⟩,
        [.idle, .waitRead .FAIR]⟩ : Sys).st).2.waiting_writers = 0) ∧
    ((⟨⟨0, 0, 0, 0, .FAIR, false, [false, false]⟩,
        [.waitRead .FAIR, .waitRead .FAIR]⟩ : Sys).st.waiting_readers =
      (⟨⟨0, 0, 0, 0, .FAIR, false, [false]⟩,
        [.idle, .waitRead .FAIR]⟩ : Sys).st.waiting_readers ∧
      (⟨⟨0, 0, 0, 0, .FAIR, false, [false, false]⟩,
        [.waitRead .FAIR, .waitRead .FAIR]⟩ : Sys).st.waiting_writers =
      (⟨⟨0, 0, 0, 0, .FAIR, false, [false]⟩,
        [.idle, .waitRead .FAIR]⟩ : Sys).st.waiting_writers) :=
  ⟨fair_mode_waiting_zero.2.2 .FAIR 2
      [.startWrite 0, .grantWrite 0, .startRead 1, .endWrite 0]
      ⟨⟨0, 0, 0, 0, .FAIR, false, [false]⟩, [.idle, .waitRead .FAIR]⟩
      (by decide) (by decide),
    fair_mode_waiting_zero.1
      ⟨⟨0, 0, 0, 0, .FAIR, false, [false]⟩, [.idle, .waitRead .FAIR]⟩
      ⟨⟨0, 0, 0, 0, .FAIR, false, [false, false]⟩,
        [.waitRead .FAIR, .waitRead .FAIR]⟩ 0 rfl (by decide)⟩

/-- The ticket kind an event enqueues (`false` = reader, `true` =
writer), if any. -/
def evStartKinds : Ev → List Bool
  | .startRead _ => [false]
  | .startWrite _ => [true]
  | _ => []

/-- The ticket kind an event grants, if any. -/
def evGrantKinds : Ev → List Bool
  | .grantRead _ => [false]
  | .grantWrite _ => [true]
  | _ => []

/-- Is this event a policy switch? -/
def isSetPrio : Ev → Bool
  | .setPrio _ => true
  | _ => false

/-- The list contains no policy switch. -/
def noSetPrio : List Ev → Bool
  | [] => true
  | e :: l => !isSetPrio e && noSetPrio l

/-- Kinds of the acquires submitted along a trace, in submission
order. -/
def startKinds : List Ev → List Bool
  | [] => []
  | e :: l => evStartKinds e ++ startKinds l

/-- Kinds of the grants along a trace, in grant order. -/
def grantKinds : List Ev → List Bool
  | [] => []
  | e :: l => evGrantKinds e ++ grantKinds l

theorem fair_step_facts {σ σ2 : Sys} {e : Ev}
    (hp : σ.st.priority = .FAIR)
    (hcap : ∀ t ∈ σ.threads, capFair t = true)
    (hns : isSetPrio e = false)
    (h : stepEv σ e = some σ2) :
    σ2.st.priority = .FAIR ∧ (∀ t ∈ σ2.threads, capFair t = true) ∧
    σ.st.request_queue ++ evStartKinds e
      = evGrantKinds e ++ σ2.st.request_queue := by
  cases e with
  | startRead tid =>
    simp only [stepEv] at h
    split at h
    case _ hm =>
      rw [Option.some_inj] at h
      subst h
      refine ⟨?_, ?_, ?_⟩ <;>
        simp only [start_read_enter, hp, if_pos, evStartKinds,
          evGrantKinds, List.nil_append]
      · exact set_forall_capFair hcap rfl
    case _ => exact Option.noConfusion h
  | grantRead tid =>
    simp only [stepEv] at h
    split at h
    case _ cap hm =>
      split at h
      case _ hr =>
        rw [Option.some_inj] at h
        subst h
        have hcapt : cap = .FAIR := by
          have hlt := getElem?_some_lt hm
          rw [List.getElem?_eq_getElem hlt, Option.some_inj] at hm
          have := hcap _ (hm ▸ σ.threads.getElem_mem hlt)
          simpa [capFair] using this
        subst hcapt
        simp only [read_ready, Bool.and_eq_true, beq_iff_eq,
          Bool.not_eq_true'] at hr
        rcases hq : σ.st.request_queue with _ | ⟨b, t⟩
        · rw [hq] at hr; simp at hr
        · have hb : b = false := by
            rw [hq] at hr
            simpa using hr.2
          subst hb
          refine ⟨?_, ?_, ?_⟩ <;>
            simp only [start_read_grant, if_pos, evStartKinds,
              evGrantKinds, hq, List.append_nil, List.tail_cons,
              List.singleton_append]
          · exact hp
          · exact set_forall_capFair hcap rfl
      case _ => exact Option.noConfusion h
    case _ => exact Option.noConfusion h
  | endRead tid =>
    simp only [stepEv] at h
    split at h
    case _ hm =>
      rw [Option.some_inj] at h
      subst h
      exact ⟨hp, set_forall_capFair hcap rfl, by
        simp [end_read, evStartKinds, evGrantKinds]⟩
    case _ => exact Option.noConfusion h
  | startWrite tid =>
    simp only [stepEv] at h
    split at h
    case _ hm =>
      rw [Option.some_inj] at h
      subst h
      refine ⟨?_, ?_, ?_⟩ <;>
        simp only [start_write_enter, hp, if_pos, evStartKinds,
          evGrantKinds, List.nil_append]
      · exact set_forall_capFair hcap rfl
    case _ => exact Option.noConfusion h
  | grantWrite tid =>
    simp only [stepEv] at h
    split at h
    case _ cap hm =>
      split at h
      case _ hr =>
        rw [Option.some_inj] at h
        subst h
        have hcapt : cap = .FAIR := by
          have hlt := getElem?_some_lt hm
          rw [List.getElem?_eq_getElem hlt, Option.some_inj] at hm
          have := hcap _ (hm ▸ σ.threads.getElem_mem hlt)
          simpa [capFair] using this
        subst hcapt
        simp only [write_ready, Bool.and_eq_true, beq_iff_eq,
          Bool.not_eq_true'] at hr
        rcases hq : σ.st.request_queue with _ | ⟨b, t⟩
        · rw [hq] at hr; simp at hr
        · have hb : b = true := by
            rw [hq] at hr
            simpa using hr.2
          subst hb
          refine ⟨?_, ?_, ?_⟩ <;>
            simp only [start_write_grant, if_pos, evStartKinds,
              evGrantKinds, hq, List.append_nil, List.tail_cons,
              List.singleton_append]
          · exact hp
          · exact set_forall_capFair hcap rfl
      case _ => exact Option.noConfusion h
    case _ => exact Option.noConfusion h
  | endWrite tid =>
    simp only [stepEv] at h
    split at h
    case _ hm =>
      rw [Option.some_inj] at h
      subst h
      exact ⟨hp, set_forall_capFair hcap rfl, by
        simp [end_write, evStartKinds, evGrantKinds]⟩
    case _ => exact Option.noConfusion h
  | setPrio p => exact Bool.noConfusion hns

theorem fair_kinds_run :
    ∀ (l : List Ev) (σ σ2 : Sys), noSetPrio l = true →
      σ.st.priority = .FAIR → (∀ t ∈ σ.threads, capFair t = true) →
      run σ l = some σ2 →
      σ.st.request_queue ++ startKinds l
        = grantKinds l ++ σ2.st.request_queue
  | [], σ, σ2, _, _, _, h => by
    rw [run, Option.some_inj] at h
    subst h
    simp [startKinds, grantKinds]
  | e :: l, σ, σ2, hn, hp, hcap, h => by
    rw [run] at h
    rw [noSetPrio, Bool.and_eq_true, Bool.not_eq_true'] at hn
    cases hs : stepEv σ e with
    | none => rw [hs] at h; exact Option.noConfusion h
    | some σ1 =>
      rw [hs] at h
      obtain ⟨hp1, hcap1, hq1⟩ := fair_step_facts hp hcap hn.1 hs
      have ih := fair_kinds_run l σ1 σ2 hn.2 hp1 hcap1 h
      rw [startKinds, grantKinds, ← List.append_assoc, hq1,
        List.append_assoc, ih, ← List.append_assoc]

/-- Counterexample to Claim C3 as stated: a protocol-respecting FAIR
interleaving in which thread 1 submits its read request (its ticket is
enqueued) strictly before thread 2 submits its own, yet the final event
grants thread 2 while thread 1 is still waiting. Tickets are anonymous
`bool`s, so the FAIR wait lambda only checks the kind of the queue head,
and thread 2 may pop the ticket position that thread 1's earlier
submission created. -/
theorem fair_fifo_identity_counterexample :
    run (initSys .FAIR 3)
        [.startWrite 0, .grantWrite 0, .startRead 1, .startRead 2,
          .endWrite 0, .grantRead 2] =
      some ⟨⟨1, 0, 0, 0, .FAIR, false, [false]⟩,
        [.idle, .waitRead .FAIR, .activeRead]⟩ ∧
    (⟨⟨1, 0, 0, 0, .FAIR, false, [false]⟩,
        [.idle, .waitRead .FAIR, .activeRead]⟩ : Sys).threads[1]?
      = some (.waitRead .FAIR) ∧
    (⟨⟨1, 0, 0, 0, .FAIR, false, [false]⟩,
        [.idle, .waitRead .FAIR, .activeRead]⟩ : Sys).threads[2]?
      = some .activeRead := by
  refine ⟨by decide, by decide, by decide⟩

/-- Claim C3, amended: grants consume the FAIR queue strictly in FIFO
order of submission *positions*: along any switch-free run from a fresh
FAIR coordinator, the sequence of submitted ticket kinds equals the
sequence of granted kinds followed by the kinds still queued, so the
k-th grant has the kind of the k-th submission (for [R1, W1, R2]: some
reader first, the writer second, a reader third). Which same-kind
thread takes a position is not determined, since tickets are
anonymous. -/
theorem fair_fifo_kinds (n : Nat) (l : List Ev) (σ : Sys)
    (hn : noSetPrio l = true) (h : run (initSys .FAIR n) l = some σ) :
    startKinds l = grantKinds l ++ σ.st.request_queue := by
  have := fair_kinds_run l (initSys .FAIR n) σ hn rfl
    (by
      intro t ht
      rw [List.eq_of_mem_replicate ht]
      rfl) h
  simpa [initSys, init] using this

/-- Witness for the amended C3: the submissions [W, R, R] of the
counterexample trace have grant kinds [W, R] and residual queue [R];
the submitted kinds equal the granted kinds followed by the queue. -/
theorem fair_fifo_kinds_witness :
    startKinds
        [.startWrite 0, .grantWrite 0, .startRead 1, .startRead 2,
          .endWrite 0, .grantRead 2]
      = grantKinds
          [.startWrite 0, .grantWrite 0, .startRead 1, .startRead 2,
            .endWrite 0, .grantRead 2]
        ++ (⟨⟨1, 0, 0, 0, .FAIR, false, [false]⟩,
            [.idle, .waitRead .FAIR, .activeRead]⟩ : Sys).st.request_queue :=
  fair_fifo_kinds 3
    [.startWrite 0, .grantWrite 0, .startRead 1, .startRead 2,
      .endWrite 0, .grantRead 2]
    ⟨⟨1, 0, 0, 0, .FAIR, false, [false]⟩,
      [.idle, .waitRead .FAIR, .activeRead]⟩
    (by decide) (by decide)

/-- Is this event a switch to the FAIR policy? -/
def isSetFair : Ev → Bool
  | .setPrio .FAIR => true
  | _ => false

/-- The list contains no switch to the FAIR policy. -/
def noSetFair : List Ev → Bool
  | [] => true
  | e :: l => !isSetFair e && noSetFair l

/-- Thread `tid` is blocked on the FAIR read lambda while the policy is
not FAIR and the ticket queue is empty: the configuration produced by
switching away from FAIR while the thread was blocked. -/
def StuckRead (tid : Nat) (σ : Sys) : Prop :=
  σ.st.priority ≠ .FAIR ∧ σ.st.request_queue = [] ∧
  σ.threads[tid]? = some (.waitRead .FAIR)

theorem stuck_read_step {σ σ2 : Sys} {tid : Nat} {e : Ev}
    (hS : StuckRead tid σ) (hns : isSetFair e = false)
    (h : stepEv σ e = some σ2) : StuckRead tid σ2 := by
  obtain ⟨s1, s2, s3⟩ := hS
  cases e with
  | startRead t =>
    simp only [stepEv] at h
    split at h
    case _ hm =>
      rw [Option.some_inj] at h
      subst h
      have hne : t ≠ tid := by
        rintro rfl
        rw [s3] at hm
        exact TStat.noConfusion (Option.some_inj.mp hm)
      refine ⟨?_, ?_, ?_⟩ <;>
        simp only [start_read_enter, if_neg s1]
      · exact s1
      · exact s2
      · rw [List.getElem?_set_ne hne]
        exact s3
    case _ => exact Option.noConfusion h
  | grantRead t =>
    simp only [stepEv] at h
    split at h
    case _ cap hm =>
      split at h
      case _ hr =>
        rw [Option.some_inj] at h
        subst h
        have hne : t ≠ tid := by
          rintro rfl
          rw [s3, Option.some_inj] at hm
          have hcap : cap = .FAIR := by
            cases hm
            rfl
          subst hcap
          rw [read_ready, s2] at hr
          simp at hr
        refine ⟨?_, ?_, ?_⟩
        · simp only [start_read_grant]
          split <;> exact s1
        · simp only [start_read_grant]
          split <;> simp [s2]
        · simp only [List.getElem?_set_ne hne]
          exact s3
      case _ => exact Option.noConfusion h
    case _ => exact Option.noConfusion h
  | endRead t =>
    simp only [stepEv] at h
    split at h
    case _ hm =>
      rw [Option.some_inj] at h
      subst h
      have hne : t ≠ tid := by
        rintro rfl
        rw [s3] at hm
        exact TStat.noConfusion (Option.some_inj.mp hm)
      exact ⟨s1, s2, by rw [List.getElem?_set_ne hne]; exact s3⟩
    case _ => exact Option.noConfusion h
  | startWrite t =>
    simp only [stepEv] at h
    split at h
    case _ hm =>
      rw [Option.some_inj] at h
      subst h
      have hne : t ≠ tid := by
        rintro rfl
        rw [s3] at hm
        exact TStat.noConfusion (Option.some_inj.mp hm)
      refine ⟨?_, ?_, ?_⟩ <;>
        simp only [start_write_enter, if_neg s1]
      · exact s1
      · exact s2
      · rw [List.getElem?_set_ne hne]
        exact s3
    case _ => exact Option.noConfusion h
  | grantWrite t =>
    simp only [stepEv] at h
    split at h
    case _ cap hm =>
      split at h
      case _ hr =>
        rw [Option.some_inj] at h
        subst h
        have hne : t ≠ tid := by
          rintro rfl
          rw [s3] at hm
          exact TStat.noConfusion (Option.some_inj.mp hm)
        refine ⟨?_, ?_, ?_⟩
        · simp only [start_write_grant]
          split <;> exact s1
        · simp only [start_write_grant]
          split <;> simp [s2]
        · simp only [List.getElem?_set_ne hne]
          exact s3
      case _ => exact Option.noConfusion h
    case _ => exact Option.noConfusion h
  | endWrite t =>
    simp only [stepEv] at h
    split at h
    case _ hm =>
      rw [Option.some_inj] at h
      subst h
      have hne : t ≠ tid := by
        rintro rfl
        rw [s3] at hm
        exact TStat.noConfusion (Option.some_inj.mp hm)
      exact ⟨s1, s2, by rw [List.getElem?_set_ne hne]; exact s3⟩
    case _ => exact Option.noConfusion h
  | setPrio p =>
    simp only [stepEv, Option.some_inj] at h
    subst h
    have hp : p ≠ .FAIR := by
      rintro rfl
      exact Bool.noConfusion hns
    refine ⟨hp, ?_, s3⟩
    simp only [set_priority]
    rw [if_neg (by tauto), if_neg hp]
    exact s2

theorem stuck_read_run :
    ∀ (l : List Ev) (σ σ2 : Sys) (tid : Nat), StuckRead tid σ →
      noSetFair l = true → run σ l = some σ2 → StuckRead tid σ2
  | [], σ, σ2, tid, hS, _, h => by
    rw [run, Option.some_inj] at h
    exact h ▸ hS
  | e :: l, σ, σ2, tid, hS, hn, h => by
    rw [run] at h
    rw [noSetFair, Bool.and_eq_true, Bool.not_eq_true'] at hn
    cases hs : stepEv σ e with
    | none => rw [hs] at h; exact Option.noConfusion h
    | some σ1 =>
      rw [hs] at h
      exact stuck_read_run l σ1 σ2 tid (stuck_read_step hS hn.1 hs)
        hn.2 h

/-- Claim C4 fails on the code: a reader blocks under FAIR while a
writer is active; `set_priority(READERS)` clears the queue; the writer
releases. The blocked reader is still inside the FAIR branch of
`start_read`, so on every wakeup it re-evaluates the *captured* FAIR
lambda — which demands a non-empty queue with a reader head — not the
new policy's lambda (`!writer_active`, which is satisfied). As long as
no one switches back to FAIR nothing ever enqueues again, so in every
reachable continuation the reader is still blocked and its wait
predicate is false: the thread is deadlocked, although the spec promises
it unblocks once the new policy's predicate is satisfiable. -/
theorem policy_switch_strands_fair_waiter :
    run (initSys .FAIR 3)
        [.startWrite 0, .grantWrite 0, .startRead 1, .setPrio .READERS,
          .endWrite 0]
      = some ⟨⟨0, 0, 0, 0, .READERS, false, []⟩,
          [.idle, .waitRead .FAIR, .idle]⟩ ∧
    (⟨⟨0, 0, 0, 0, .READERS, false, []⟩,
        [.idle, .waitRead .FAIR, .idle]⟩ : Sys).st.writer_active = false ∧
    (∀ (l : List Ev) (σ2 : Sys), noSetFair l = true →
      run (⟨⟨0, 0, 0, 0, .READERS, false, []⟩,
        [.idle, .waitRead .FAIR, .idle]⟩ : Sys) l = some σ2 →
      σ2.threads[1]? = some (.waitRead .FAIR) ∧
      read_ready σ2.st .FAIR = false) := by
  refine ⟨by decide, rfl, ?_⟩
  intro l σ2 hn h
  have hstuck := stuck_read_run l
    (⟨⟨0, 0, 0, 0, .READERS, false, []⟩,
      [.idle, .waitRead .FAIR, .idle]⟩ : Sys) σ2 1
    ⟨by intro hc; exact Priority.noConfusion hc, rfl, by decide⟩ hn h
  refine ⟨hstuck.2.2, ?_⟩
  rw [read_ready, hstuck.2.1]
  simp

/-- Witness for C4's theorem: after the stranding configuration, thread
2 performs a full read cycle under the new READERS policy while thread 1
remains blocked with a wait predicate that evaluates to false. -/
theorem policy_switch_strands_fair_waiter_witness :
    (⟨⟨0, 0, 0, 0, .READERS, false, []⟩,
        [.idle, .waitRead .FAIR, .idle]⟩ : Sys).threads[1]?
      = some (.waitRead .FAIR) ∧
    read_ready (⟨⟨0, 0, 0, 0, .READERS, false, []⟩,
        [.idle, .waitRead .FAIR, .idle]⟩ : Sys).st .FAIR = false :=
  policy_switch_strands_fair_waiter.2.2
    [.startRead 2, .grantRead 2, .endRead 2]
    ⟨⟨0, 0, 0, 0, .READERS, false, []⟩, [.idle, .waitRead .FAIR, .idle]⟩
    (by decide) (by decide)

end RW
